import Mathlib

deriving instance DecidableEq for Except

/-!
Verification development for the Adobe Challenge PDF analysis repository.

The repository has two engines:
  * round1a_outline_extractor.py : PDFOutlineExtractor, producing a title and
    a leveled outline from per-page spans and plain text;
  * round1b_document_intelligence.py : PersonaDrivenAnalyzer, producing a
    persona and job driven ranking of page sections and sub-sections.

Text is modelled as lists of characters. Floating point sizes and scores are
modelled as exact rationals. The external collaborators (PyMuPDF document
structure provider, the sentence transformer encoder, the NLTK sentence
segmenter) are modelled as explicit data and as function parameters, following
section 6 of the specification which treats them as black boxes.
-/

namespace AdobeChallenge

/-- Text, modelled as a list of characters. -/
abbrev Str := List Char

/-- Literal helper turning a Lean string into the character list model. -/
def lit (s : String) : Str := s.toList

/-- Whitespace test used by the Python level string operations. -/
def isWs (c : Char) : Bool := c = ' ' || c = '\t' || c = '\n' || c = '\r'

/-- ASCII uppercase letter test. -/
def isUpperA (c : Char) : Bool := 'A' ≤ c && c ≤ 'Z'

/-- ASCII lowercase letter test. -/
def isLowerA (c : Char) : Bool := 'a' ≤ c && c ≤ 'z'

/-- ASCII letter test, the model of a cased character. -/
def isAlphaA (c : Char) : Bool := isUpperA c || isLowerA c

/-- ASCII digit test. -/
def isDigitA (c : Char) : Bool := '0' ≤ c && c ≤ '9'

/-- Model of the regex word class: letters, digits and the underscore. -/
def isWordChar (c : Char) : Bool := isAlphaA c || isDigitA c || c = '_'

/-- Character translation through an association table, identity outside
the table. -/
def tableMap : List (Char × Char) → Char → Char
  | [], c => c
  | p :: t, c => if c = p.1 then p.2 else tableMap t c

/-- The ASCII lowering table. -/
def lowerTable : List (Char × Char) :=
  [('A', 'a'), ('B', 'b'), ('C', 'c'), ('D', 'd'), ('E', 'e'), ('F', 'f'),
   ('G', 'g'), ('H', 'h'), ('I', 'i'), ('J', 'j'), ('K', 'k'), ('L', 'l'),
   ('M', 'm'), ('N', 'n'), ('O', 'o'), ('P', 'p'), ('Q', 'q'), ('R', 'r'),
   ('S', 's'), ('T', 't'), ('U', 'u'), ('V', 'v'), ('W', 'w'), ('X', 'x'),
   ('Y', 'y'), ('Z', 'z')]

/-- The ASCII raising table. -/
def upperTable : List (Char × Char) := lowerTable.map (fun p => (p.2, p.1))

/-- ASCII lowering of a single character. -/
def lowerChar (c : Char) : Char := tableMap lowerTable c

/-- ASCII raising of a single character. -/
def upperChar (c : Char) : Char := tableMap upperTable c

/-- Model of the Python str.lower method. -/
def lower (s : Str) : Str := s.map lowerChar

/-- Leading whitespace removal. -/
def ltrim (s : Str) : Str := s.dropWhile isWs

/-- Trailing whitespace removal. -/
def rtrim (s : Str) : Str := (ltrim s.reverse).reverse

/-- Model of the Python str.strip method. -/
def strip (s : Str) : Str := rtrim (ltrim s)

/-- Model of the regex substitution collapsing every whitespace run into a
single space, with a state tracking whether the previous character was
part of a run. -/
def collapseWsAux : Bool → Str → Str
  | _, [] => []
  | prevWs, c :: cs =>
    if isWs c then
      if prevWs then collapseWsAux true cs else ' ' :: collapseWsAux true cs
    else c :: collapseWsAux false cs

/-- Model of re.sub applied with a whitespace-run pattern and a space. -/
def collapseWs (s : Str) : Str := collapseWsAux false s

/-- Model of the Python str.split method without arguments: split on
whitespace runs, discarding empty pieces. -/
def pySplitAux : Str → Str → List Str
  | acc, [] => if acc.isEmpty then [] else [acc.reverse]
  | acc, c :: cs =>
    if isWs c then
      if acc.isEmpty then pySplitAux [] cs else acc.reverse :: pySplitAux [] cs
    else pySplitAux (c :: acc) cs

/-- Whitespace splitting entry point. -/
def pySplit (s : Str) : List Str := pySplitAux [] s

/-- Model of the Python split on a newline character, keeping empty pieces. -/
def splitOnNl : Str → List Str
  | [] => [[]]
  | c :: cs =>
    if c = '\n' then [] :: splitOnNl cs
    else
      match splitOnNl cs with
      | [] => [[c]]
      | h :: t => (c :: h) :: t

/-- Prefix test between character lists. -/
def leadsWith : Str → Str → Bool
  | [], _ => true
  | _ :: _, [] => false
  | a :: as, b :: bs => a = b && leadsWith as bs

/-- Substring containment, the model of the Python in operator on strings. -/
def containsSub (n : Str) : Str → Bool
  | [] => n.isEmpty
  | c :: t => leadsWith n (c :: t) || containsSub n t

/-- Model of the Python str.isupper method: at least one cased character and
every cased character uppercase (ASCII model). -/
def pyIsUpper (s : Str) : Bool :=
  s.any isAlphaA && s.all (fun c => !isAlphaA c || isUpperA c)

/-- Model of the Python str.title method: raise the first letter of every
letter run, lower the rest (ASCII model). -/
def pyTitleAux : Bool → Str → Str
  | _, [] => []
  | prevAlpha, c :: cs =>
    if isAlphaA c then
      (if prevAlpha then lowerChar c else upperChar c) :: pyTitleAux true cs
    else c :: pyTitleAux false cs

/-- Title casing entry point. -/
def pyTitle (s : Str) : Str := pyTitleAux false s

/-- Model of the Python str.endswith method applied with a period. -/
def endsWithDot (s : Str) : Bool := s.getLast? = some '.'

/-- Maximal word-character runs of length at least three, the model of
re.findall applied with a bounded word pattern. -/
def wordRunsAux : Str → Str → List Str
  | acc, [] => if acc.isEmpty then [] else [acc.reverse]
  | acc, c :: cs =>
    if isWordChar c then wordRunsAux (c :: acc) cs
    else if acc.isEmpty then wordRunsAux [] cs
    else acc.reverse :: wordRunsAux [] cs

/-- All maximal word-character runs of a text. -/
def wordRuns (s : Str) : List Str := wordRunsAux [] s

/-- Decimal representation of a natural number as model text. -/
def natStr (n : ℕ) : Str := (Nat.repr n).toList

/-!
Document structure provider model. A span is a run of text with one font
size, a vertical position and a boldness flag, as reported by PyMuPDF for
the text blocks of a page. Blocks without text lines (images) are skipped
by every loop of the source, so pages are modelled by their text blocks.
-/

/-- A text span of a PDF page. -/
structure Span where
  text : Str
  size : ℚ
  y : ℚ
  bold : Bool
deriving DecidableEq

/-- A line is a list of spans. -/
abbrev SpanLine := List Span

/-- A text block is a list of lines. -/
abbrev SpanBlock := List SpanLine

/-- A page carries its text blocks and the plain text accessor value that
the provider returns for get_text. -/
structure Page where
  blocks : List SpanBlock
  text : Str
deriving DecidableEq

/-- A parsed document: pages plus the optional metadata title (empty when
the metadata has no title). -/
structure RawDoc where
  pages : List Page
  metadataTitle : Str
deriving DecidableEq

/-- All spans of a page in reading order. -/
def pageSpans (pg : Page) : List Span :=
  (pg.blocks.map (fun b => (b.map id).flatten)).flatten

/-- All spans of a document in reading order. -/
def docSpans (d : RawDoc) : List Span :=
  (d.pages.map pageSpans).flatten

/-!
Round 1A model: PDFOutlineExtractor from round1a_outline_extractor.py.
-/

/-- Round half to even on rationals, the model of the Python round builtin
as applied to span sizes. -/
def roundHalfEven (q : ℚ) : ℤ :=
  let f : ℤ := ⌊q⌋
  let r : ℚ := q - f
  if r < 1/2 then f
  else if 1/2 < r then f + 1
  else if f % 2 = 0 then f else f + 1

/-- Rounding to one decimal, the model of round applied with ndigits one. -/
def round1 (q : ℚ) : ℚ := (roundHalfEven (q * 10) : ℚ) / 10

/-- Counter update: add a character count to the entry of a size, keeping
first-insertion order as the Python dict based Counter does. -/
def bumpCount (k : ℚ) (n : ℕ) : List (ℚ × ℕ) → List (ℚ × ℕ)
  | [] => [(k, n)]
  | (k2, m) :: t => if k2 = k then (k2, m + n) :: t else (k2, m) :: bumpCount k n t

/-- Font usage counter over the whole document: cumulative character count
per rounded size, model of the Counter in _analyze_fonts. -/
def fontUsage (d : RawDoc) : List (ℚ × ℕ) :=
  (docSpans d).foldl (fun acc sp => bumpCount (round1 sp.size) sp.text.length acc) []

/-- Model of Counter.most_common picking the first key with the greatest
count in insertion order, as the stable Python sort does. -/
def mostCommonKey (l : List (ℚ × ℕ)) : Option ℚ :=
  (l.foldl
    (fun best kv =>
      match best with
      | none => some kv
      | some b => if b.2 < kv.2 then some kv else some b)
    none).map Prod.fst

/-- Stable insertion into a descending list: the element lands after every
element with a key at least as large. -/
def insDesc {α : Type} (key : α → ℚ) (x : α) : List α → List α
  | [] => [x]
  | y :: t => if key y < key x then x :: y :: t else y :: insDesc key x t

/-- Stable descending sort by a rational key, the model of the Python
list.sort with reverse set. -/
def sortDescBy {α : Type} (key : α → ℚ) (l : List α) : List α :=
  l.foldl (fun acc x => insDesc key x acc) []

/-- Result of _analyze_fonts: body size and descending heading sizes. -/
structure FontStats where
  body : ℚ
  headingSizes : List ℚ
deriving DecidableEq

/-- Model of _analyze_fonts: body font size is the rounded size with the
greatest cumulative character count; heading sizes are the counter keys
exceeding the body size by more than the 2.0 point threshold, sorted in
descending order. The empty-counter fallback is twelve with sixteen and
fourteen. -/
def analyzeFonts (d : RawDoc) : FontStats :=
  let fu := fontUsage d
  match mostCommonKey fu with
  | some b => ⟨b, sortDescBy (fun q => q) ((fu.map Prod.fst).filter (fun s => decide (b + 2 < s)))⟩
  | none => ⟨12, [16, 14]⟩

/-- Level text of the source f-string applied to a numeric level. -/
def hstr (n : ℕ) : Str := 'H' :: natStr n

/-- Inner loop of _determine_heading_level with the running index. -/
def dhlAux (fs : ℚ) : ℕ → List ℚ → Str
  | _, [] => lit "H3"
  | i, s :: t => if s - 1/2 ≤ fs then hstr (min (i + 1) 3) else dhlAux fs (i + 1) t

/-- Model of _determine_heading_level: first heading size within the half
point tolerance fixes the level, empty size list gives H2, no match H3. -/
def determineHeadingLevel (fs : ℚ) (hs : List ℚ) : Str :=
  match hs with
  | [] => lit "H2"
  | _ :: _ => dhlAux fs 0 hs

/-- A heading candidate tuple as built by the three strategies. -/
structure Heading where
  level : Str
  text : Str
  page : ℕ
  fontSize : ℚ
  strategy : Str
deriving DecidableEq

/-- Concatenated text of the spans of a line. -/
def spansText (l : SpanLine) : Str := (l.map Span.text).flatten

/-- Maximum span size of a line, zero seeded as in the source. -/
def spansMaxSize (l : SpanLine) : ℚ := l.foldl (fun m sp => max m sp.size) 0

/-- Model of _extract_by_font: a stripped line whose maximum span size
exceeds the body size by more than the threshold and whose length lies
strictly between two and two hundred becomes a candidate. -/
def extract_by_font (pg : Page) (pageNum : ℕ) (body : ℚ) (hs : List ℚ) : List Heading :=
  (pg.blocks.map (fun b =>
    (b.map (fun l =>
      let t := strip (spansText l)
      let sz := spansMaxSize l
      if !t.isEmpty && 2 < t.length && t.length < 200 && decide (body + 2 < sz) then
        [Heading.mk (determineHeadingLevel sz hs) t (pageNum + 1) sz (lit "font")]
      else [])).flatten)).flatten

/-- The fixed structural keyword vocabulary of the extractor. -/
def commonHeadings : List Str :=
  [lit "introduction", lit "conclusion", lit "abstract", lit "summary",
   lit "overview", lit "methodology", lit "results", lit "discussion",
   lit "references", lit "appendix", lit "background", lit "literature review",
   lit "analysis", lit "findings"]

/-- States of the deterministic recognizer for the leading numeric marker
regex: digits, then dot-digit groups, then an optional dot, then required
whitespace. -/
inductive MarkState
  | start
  | run
  | dot
  | ws
deriving DecidableEq

/-- Recognizer for the numeric marker pattern. It returns the remainder of
the line after the matched marker and its trailing whitespace run, which is
exactly what re.sub leaves, and none when re.match fails. -/
def numMarkerAux : MarkState → Str → Option Str
  | .start, [] => none
  | .start, c :: cs => if isDigitA c then numMarkerAux .run cs else none
  | .run, [] => none
  | .run, c :: cs =>
    if isDigitA c then numMarkerAux .run cs
    else if c = '.' then numMarkerAux .dot cs
    else if isWs c then numMarkerAux .ws cs
    else none
  | .dot, [] => none
  | .dot, c :: cs =>
    if isDigitA c then numMarkerAux .run cs
    else if isWs c then numMarkerAux .ws cs
    else none
  | .ws, [] => some []
  | .ws, c :: cs => if isWs c then numMarkerAux .ws cs else some (c :: cs)

/-- Entry point of the numeric marker recognizer. -/
def numMarkerStrip (s : Str) : Option Str := numMarkerAux .start s

/-- Model of the loop body of _extract_by_patterns for one raw line of the
page text: strip, skip short lines, then the three elif branches in source
order (numeric marker, structural keyword, all-caps). -/
def patternHeadingsOfLine (raw : Str) (pageNum : ℕ) : List Heading :=
  let line := strip raw
  if line.isEmpty || line.length < 3 then []
  else
    match numMarkerStrip line with
    | some rest =>
      let tok := (pySplit line).headD []
      [Heading.mk (hstr (min (tok.count '.' + 1) 3)) rest (pageNum + 1) 0 (lit "pattern")]
    | none =>
      if commonHeadings.any (fun kw => containsSub kw (lower line)) then
        if line.length < 100 then
          [Heading.mk (lit "H2") line (pageNum + 1) 0 (lit "pattern")]
        else []
      else if pyIsUpper line && line.length < 80 then
        [Heading.mk (lit "H2") (pyTitle line) (pageNum + 1) 0 (lit "pattern")]
      else []

/-- Model of _extract_by_patterns over the newline-split page text. -/
def extract_by_patterns (pg : Page) (pageNum : ℕ) : List Heading :=
  ((splitOnNl pg.text).map (fun l => patternHeadingsOfLine l pageNum)).flatten

/-- Model of _extract_by_position: single-span bold lines of bounded length
become H2 candidates. -/
def extract_by_position (pg : Page) (pageNum : ℕ) : List Heading :=
  (pg.blocks.map (fun b =>
    (b.map (fun l =>
      match l with
      | [sp] =>
        let t := strip sp.text
        if !t.isEmpty && t.length < 150 && sp.bold then
          [Heading.mk (lit "H2") t (pageNum + 1) sp.size (lit "position")]
        else []
      | _ => [])).flatten)).flatten

/-- Normalization used for deduplication: lower, strip, collapse whitespace
runs, exactly the source expression. -/
def normText (t : Str) : Str := collapseWs (strip (lower t))

/-- Deduplication loop of _combine_strategies: keep the first candidate of
each normalized text, drop candidates whose stripped text has length at
most two, and strip the kept text. -/
def dedupAux : List Str → List Heading → List Heading
  | _, [] => []
  | seen, h :: t =>
    let n := normText h.text
    if n ∉ seen ∧ 2 < (strip h.text).length then
      { h with text := strip h.text } :: dedupAux (n :: seen) t
    else dedupAux seen t

/-- Stable ascending insertion by page number. -/
def insPage (h : Heading) : List Heading → List Heading
  | [] => [h]
  | h2 :: t => if h.page < h2.page then h :: h2 :: t else h2 :: insPage h t

/-- Stable ascending sort by page number, the model of the final sort of
_combine_strategies. -/
def sortByPage (l : List Heading) : List Heading :=
  l.foldl (fun acc h => insPage h acc) []

/-- Model of _combine_strategies: concatenate in the fixed strategy order,
deduplicate on normalized text, sort stably by page. -/
def combine_strategies (fs ps pos : List Heading) : List Heading :=
  sortByPage (dedupAux [] (fs ++ ps ++ pos))

/-- Model of _extract_headings: per page, fuse the three strategies and
append, with the document-wide font statistics computed once. -/
def extract_headings (d : RawDoc) : List Heading :=
  let st := analyzeFonts d
  (d.pages.enum.map (fun pi =>
    combine_strategies
      (extract_by_font pi.2 pi.1 st.body st.headingSizes)
      (extract_by_patterns pi.2 pi.1)
      (extract_by_position pi.2 pi.1))).flatten

/-- An outline entry of the result JSON. -/
structure OutlineEntry where
  level : Str
  text : Str
  page : ℕ
deriving DecidableEq

/-- Model of _structure_outline. -/
def structure_outline (hs : List Heading) : List OutlineEntry :=
  hs.map (fun h => ⟨h.level, h.text, h.page⟩)

/-- The outline assembled by the heading chain of the extractor for a
parsed document: font statistics, three detection strategies, fusion and
structuring. -/
def outlineOf (d : RawDoc) : List OutlineEntry :=
  structure_outline (extract_headings d)

/-- Error message raised by the structure provider when a path cannot be
opened as a document. -/
def OPEN_ERR : Str := lit "cannot open document"

/-- Error message raised by the structure provider when a page index is
outside the document, as happens for doc zero-indexing on a document
without pages. -/
def NO_PAGE_ERR : Str := lit "page not in document"

/-- Error message raised by the structure provider when a closed document
is used again, as happens when the page count is read after close. -/
def CLOSED_ERR : Str := lit "document closed"

/-- Maximum of a nonempty list of rationals seeded with the head, the model
of the Python max builtin. -/
def maxHead : List ℚ → ℚ
  | [] => 0
  | q :: t => t.foldl max q

/-- First element of maximal length, the model of the Python max builtin
applied with a length key, which keeps the earliest maximal element. -/
def longest (l : List Str) : Str :=
  match l with
  | [] => []
  | t0 :: t => t.foldl (fun best x => if best.length < x.length then x else best) t0

/-- Model of _extract_title. The first page access raises on a document
without pages. Candidate spans have stripped text longer than three
characters; title candidates additionally have a size within one point of
the page maximum and a vertical position above two hundred points. The
longest candidate is cleaned; if it exceeds one hundred characters the
first raw candidate of length at most one hundred replaces it. Fallbacks
are the metadata title and the fixed untitled text. -/
def extract_title (d : RawDoc) : Except Str Str :=
  match d.pages with
  | [] => .error NO_PAGE_ERR
  | p0 :: _ =>
    let twf := (pageSpans p0).filterMap (fun sp =>
      let t := strip sp.text
      if !t.isEmpty && 3 < t.length then some (t, sp.size, sp.y) else none)
    let fromSpans : Option Str :=
      if twf.isEmpty then none
      else
        let maxF := maxHead (twf.map (fun x => x.2.1))
        let cands := (twf.filter (fun x => decide (maxF - 1 ≤ x.2.1) && decide (x.2.2 < 200))).map
          (fun x => x.1)
        if cands.isEmpty then none
        else
          let t0 := strip (collapseWs (longest cands))
          if 100 < t0.length then
            match cands.filter (fun t => t.length ≤ 100) with
            | [] => some t0
            | t1 :: _ => some t1
          else some t0
    match fromSpans with
    | some t => .ok t
    | none =>
      let mt := strip d.metadataTitle
      if mt.isEmpty then .ok (lit "Untitled Document") else .ok mt

/-- Result shape of extract_outline: either the full result with title,
outline and metadata page and heading counts (the wall-clock processing
time of the metadata is not modelled), or the degraded shape carrying an
empty title, an empty outline and a populated error field. -/
inductive OutlineResult
  | full (title : Str) (outline : List OutlineEntry) (totalPages headingsFound : ℕ)
  | degraded (error : Str)
deriving DecidableEq

/-- Model of extract_outline. The source opens the document, extracts the
title and the headings, closes the document, and only then builds the
result dictionary whose metadata reads the page count of the already
closed document; the provider refuses that read, so the outer handler
returns the degraded shape with the closed-document message. Failures of
open and of the first-page access inside the title step are caught by the
same handler. -/
def extract_outline (doc? : Option RawDoc) : OutlineResult :=
  match doc? with
  | none => .degraded OPEN_ERR
  | some d =>
    match extract_title d with
    | .error e => .degraded e
    | .ok _title =>
      let _outline := outlineOf d
      .degraded CLOSED_ERR

/-!
Round 1B model: PersonaDrivenAnalyzer from round1b_document_intelligence.py.
The semantic encoder composed with cosine similarity against the persona
and job embeddings is modelled by two function parameters psim and jsim
from text to rationals, and the NLTK sentence segmenter by a parameter tok
from text to sentence lists, following section 6 of the specification.
-/

/-- An input of analyze_documents: the base name of the path and the parsed
document, none when the file cannot be opened. -/
structure PdfFile where
  filename : Str
  doc : Option RawDoc
deriving DecidableEq

/-- A section accumulator of the content segmenter. The initial accumulator
of a page has no font size key, so the later lookup falls back to twelve. -/
structure BSection where
  title : Str
  content : Str
  fontSize : Option ℚ
deriving DecidableEq

/-- Page level extraction result. -/
structure PageContent where
  pageNumber : ℕ
  sections : List BSection
  fullText : Str
deriving DecidableEq

/-- Document level extraction result. -/
structure DocContent where
  filename : Str
  pages : List PageContent
  totalPages : ℕ
deriving DecidableEq

/-- Header test of the content segmenter: maximum span size above twelve
points, stripped length strictly between five and one hundred, and no
trailing period. -/
def isSectionHeader (t : Str) (sz : ℚ) : Bool :=
  decide (12 < sz) && t.length < 100 && !endsWithDot t && 5 < t.length

/-- One step of the segmentation loop over the stripped nonempty lines of a
page: a header line flushes the accumulator when its content is not blank
and starts a fresh section; any other line is appended to the content with
a leading space. -/
def segStep (st : BSection × List BSection) (ln : Str × ℚ) : BSection × List BSection :=
  let cur := st.1
  let out := st.2
  if ln.1.isEmpty then st
  else if isSectionHeader ln.1 ln.2 then
    let out2 := if (strip cur.content).isEmpty then out else out ++ [cur]
    (⟨ln.1, [], some ln.2⟩, out2)
  else ({ cur with content := cur.content ++ ' ' :: ln.1 }, out)

/-- Stripped text and maximum size of every line of a page in order. -/
def pageLines (pg : Page) : List (Str × ℚ) :=
  ((pg.blocks.map (fun b => b.map (fun l => (strip (spansText l), spansMaxSize l)))).flatten)

/-- Model of the per-page body of _extract_pdf_content: run the segmenter
over the lines and flush the final accumulator when its content is not
blank. -/
def segmentPage (pg : Page) : List BSection :=
  let st := (pageLines pg).foldl segStep (⟨[], [], none⟩, [])
  if (strip st.1.content).isEmpty then st.2 else st.2 ++ [st.1]

/-- Model of _extract_pdf_content: open the document (raising on failure),
then build the per-page sections; the document is closed after the loop
and not used again. -/
def extract_pdf_content (f : PdfFile) : Except Str DocContent :=
  match f.doc with
  | none => .error OPEN_ERR
  | some d =>
    .ok ⟨f.filename,
      d.pages.enum.map (fun pi => ⟨pi.1 + 1, segmentPage pi.2, pi.2.text⟩),
      d.pages.length⟩

/-- A scored section of the pool. The relevance score is internal: it is
present while ranking and removed before the result is returned, which the
model expresses with an option field. -/
structure PooledSection where
  document : Str
  pageNumber : ℕ
  sectionTitle : Str
  content : Str
  fontSize : ℚ
  relevanceScore : Option ℚ
  importanceRank : ℕ
deriving DecidableEq

/-- Pooling step of _extract_relevant_sections: every section with stripped
content longer than fifty characters enters the pool, with the untitled
placeholder for a falsy title and the twelve point fallback size. -/
def poolSections (docs : List DocContent) : List PooledSection :=
  (docs.map (fun dc =>
    (dc.pages.map (fun pc =>
      pc.sections.filterMap (fun s =>
        if 50 < (strip s.content).length then
          some ⟨dc.filename, pc.pageNumber,
            (if s.title.isEmpty then lit "Untitled Section" else s.title),
            strip s.content, s.fontSize.getD 12, none, 0⟩
        else none))).flatten)).flatten

/-- The stop word list of _extract_keywords, verbatim from the source set
literal (the repeated entries collapse in the set and are harmless in the
list model, which only tests membership). -/
def stopWords : List Str :=
  [lit "the", lit "and", lit "for", lit "are", lit "but", lit "not",
   lit "you", lit "all", lit "can", lit "her", lit "was", lit "one",
   lit "our", lit "had", lit "has", lit "what", lit "who", lit "when",
   lit "where", lit "why", lit "how", lit "that", lit "this", lit "with",
   lit "from", lit "they", lit "she", lit "him", lit "his", lit "her",
   lit "its", lit "our", lit "their"]

/-- Model of _extract_keywords: word runs of length at least three, kept
when lowered they avoid the stop words and are strictly longer than three
characters, truncated to ten. -/
def extract_keywords (t : Str) : List Str :=
  (((wordRuns t).filter (fun w => 3 ≤ w.length)).filter
    (fun w => lower w ∉ stopWords ∧ 3 < w.length)).take 10

/-- Raw keyword scores of _calculate_keyword_scores before normalization:
the persona and job keyword lists are concatenated (duplicates retained),
each text counts the keywords contained in its lowered form, and the count
is divided by the word count floored at one. -/
def keywordScoresRaw (texts : List Str) (persona job : Str) : List ℚ :=
  let allKw := extract_keywords (lower persona) ++ extract_keywords (lower job)
  texts.map (fun t =>
    ((allKw.countP (fun k => containsSub k (lower t)) : ℕ) : ℚ) /
      ((max (pySplit t).length 1 : ℕ) : ℚ))

/-- Model of _calculate_keyword_scores: raw scores, then division by the
maximum when the list is nonempty and the maximum positive. -/
def calculate_keyword_scores (texts : List Str) (persona job : Str) : List ℚ :=
  let raw := keywordScoresRaw texts persona job
  match raw with
  | [] => []
  | q :: t =>
    let m := (q :: t).foldl max q
    if 0 < m then (q :: t).map (fun s => s / m) else q :: t

/-- Pairing of the pooled sections with their keyword scores, mirroring the
shared index of the source arrays. -/
def zipScores : List PooledSection → List ℚ → List (PooledSection × ℚ)
  | [], _ => []
  | _ :: _, [] => []
  | a :: as, b :: bs => (a, b) :: zipScores as bs

/-- Rank assignment loop of _extract_relevant_sections: rank one plus the
position and score removal for every kept section. -/
def rankTopAux : ℕ → List PooledSection → List PooledSection
  | _, [] => []
  | i, s :: t =>
    { s with importanceRank := i + 1, relevanceScore := none } :: rankTopAux (i + 1) t

/-- Rank assignment entry point. -/
def rankTop (l : List PooledSection) : List PooledSection := rankTopAux 0 l

/-- Model of _extract_relevant_sections: pool, score with the fixed point
four, point four, point two weighting of persona similarity, job
similarity and keyword score, sort stably descending, keep fifteen, rank
and strip the internal score. -/
def extract_relevant_sections (docs : List DocContent) (psim jsim : Str → ℚ)
    (persona job : Str) : List PooledSection :=
  let pool := poolSections docs
  let texts := pool.map (fun s => s.content)
  if texts.isEmpty then []
  else
    let kw := calculate_keyword_scores texts persona job
    let scored := (zipScores pool kw).map (fun sk =>
      { sk.1 with
        relevanceScore :=
          some (2/5 * psim sk.1.content + 2/5 * jsim sk.1.content + 1/5 * sk.2),
        importanceRank := 0 })
    rankTop ((sortDescBy (fun s => s.relevanceScore.getD 0) scored).take 15)

/-- A subsection of the refinement stage, with the internal score again an
option field removed before output. -/
structure Subsect where
  document : Str
  pageNumber : ℕ
  parentSection : Str
  subsectionId : Str
  refinedText : Str
  relevanceScore : Option ℚ
deriving DecidableEq

/-- Subsection scoring: the even persona and job weighting of the source,
applied to the raw buffer exactly as the source encodes the unstripped
accumulator. -/
def subScore (psim jsim : Str → ℚ) (buf : Str) : ℚ :=
  1/2 * psim buf + 1/2 * jsim buf

/-- Group emission loop of _extract_subsections, carrying the sentence
index, the buffer and the counter. A boundary is every third sentence and
the final sentence; a group is emitted, numbered and the buffer reset only
when the stripped buffer exceeds one hundred characters. The relevance
filtering of the source does not touch the buffer or the counter and is
applied afterwards, so it is factored out of this loop. -/
def emitGroups : List Str → ℕ → Str → ℕ → List (ℕ × Str)
  | [], _, _, _ => []
  | sn :: rest, i, buf, cnt =>
    let buf2 := buf ++ sn ++ [' ']
    if ((i + 1) % 3 = 0 || rest.isEmpty) && 100 < (strip buf2).length then
      (cnt + 1, buf2) :: emitGroups rest (i + 1) [] (cnt + 1)
    else emitGroups rest (i + 1) buf2 cnt

/-- Buffer left over after the loop: text accumulated but never emitted. -/
def leftoverBuf : List Str → ℕ → Str → Str
  | [], _, buf => buf
  | sn :: rest, i, buf =>
    let buf2 := buf ++ sn ++ [' ']
    if ((i + 1) % 3 = 0 || rest.isEmpty) && 100 < (strip buf2).length then
      leftoverBuf rest (i + 1) []
    else leftoverBuf rest (i + 1) buf2

/-- Subsection record built for an emitted group, with the identifier
composed from the document, the page and the per-section counter. -/
def mkSub (sec : PooledSection) (cnt : ℕ) (buf : Str) (sc : ℚ) : Subsect :=
  ⟨sec.document, sec.pageNumber, sec.sectionTitle,
    sec.document ++ lit "_p" ++ natStr sec.pageNumber ++ lit "_s" ++ natStr cnt,
    strip buf, some sc⟩

/-- Per-section subsection candidates: the emitted groups pass the score
gate of three tenths; discarded groups still consumed their number. -/
def sectionSubsRaw (psim jsim : Str → ℚ) (sec : PooledSection)
    (sentences : List Str) : List Subsect :=
  (emitGroups sentences 0 [] 0).filterMap (fun g =>
    let sc := subScore psim jsim g.2
    if (3 : ℚ)/10 < sc then some (mkSub sec g.1 g.2 sc) else none)

/-- Model of _extract_subsections: only the top ten ranked sections are
refined; the surviving candidates of all of them are sorted stably
descending by score, truncated to twenty, and the internal score is
removed. -/
def extract_subsections (relevant : List PooledSection) (psim jsim : Str → ℚ)
    (tok : Str → List Str) : List Subsect :=
  let subs := ((relevant.take 10).map (fun sec =>
    sectionSubsRaw psim jsim sec (tok sec.content))).flatten
  ((sortDescBy (fun u => u.relevanceScore.getD 0) subs).take 20).map
    (fun u => { u with relevanceScore := none })

/-- The analysis result shape: metadata fields (the wall-clock timestamp
and processing time are not modelled), the ranked sections and the
subsection analysis. -/
structure AnalysisResult where
  inputDocuments : List Str
  persona : Str
  job : Str
  totalDocuments : ℕ
  extractedSections : List PooledSection
  subSectionAnalysis : List Subsect
deriving DecidableEq

/-- Sequential extraction over the batch: the source loop calls the
extractor on each path in order with no per-document handler, so the first
failure aborts the loop and propagates. -/
def extractAll : List PdfFile → Except Str (List DocContent)
  | [] => .ok []
  | f :: t =>
    match extract_pdf_content f with
    | .error e => .error e
    | .ok c =>
      match extractAll t with
      | .error e => .error e
      | .ok cs => .ok (c :: cs)

/-- Model of analyze_documents: extract every document, rank the sections,
refine the subsections and assemble the result; any raised error is caught
by the outer handler of the source and becomes the degraded error-only
shape, modelled by the error case. -/
def analyze_documents (files : List PdfFile) (psim jsim : Str → ℚ)
    (tok : Str → List Str) (persona job : Str) : Except Str AnalysisResult :=
  match extractAll files with
  | .error e => .error e
  | .ok docs =>
    let rel := extract_relevant_sections docs psim jsim persona job
    let subs := extract_subsections rel psim jsim tok
    .ok ⟨files.map (fun f => f.filename), persona, job, files.length, rel, subs⟩

/-!
Claim-side definitions. These follow the wording of the specification and
the claims, to be compared with the definitions translated from the
source.
-/

/-- Written from the claim wording for the subsection refiner: the buffer
is reset at every boundary evaluation (every third sentence and the final
sentence) regardless of emission, and a buffered group is emitted exactly
when its stripped text exceeds one hundred characters; a short group is
dropped and never carried forward. -/
def claimGroupsAux : List Str → ℕ → Str → List Str
  | [], _, _ => []
  | sn :: rest, i, buf =>
    let buf2 := buf ++ sn ++ [' ']
    if (i + 1) % 3 = 0 || rest.isEmpty then
      (if 100 < (strip buf2).length then [buf2] else []) ++ claimGroupsAux rest (i + 1) []
    else claimGroupsAux rest (i + 1) buf2

/-- Claim wording entry point for the always-reset group partition. -/
def claimGroups (sentences : List Str) : List Str := claimGroupsAux sentences 0 []

/-- Minimum of a nonempty list of rationals seeded with the head. -/
def minHead : List ℚ → ℚ
  | [] => 0
  | q :: t => t.foldl min q

/-- Written from the claim wording for the keyword scorer: the persona and
job keywords form a combined keyword set (each distinct keyword counted
once), the raw score divides the number of matched keywords by the floored
word count, and the scores are min-max normalized to the unit interval,
everything staying zero when the maximum is zero. -/
def keywordScoresClaim (texts : List Str) (persona job : Str) : List ℚ :=
  let kws := (extract_keywords (lower persona) ++ extract_keywords (lower job)).dedup
  let raw := texts.map (fun t =>
    ((kws.countP (fun k => containsSub k (lower t)) : ℕ) : ℚ) /
      ((max (pySplit t).length 1 : ℕ) : ℚ))
  let M := maxHead raw
  let m := minHead raw
  if M = 0 then raw else raw.map (fun s => (s - m) / (M - m))

/-- Amended description of the keyword scorer, phrased independently of
the source loop: each occurrence in the concatenated persona and job
keyword lists contributes one to the match count when it is contained in
the lowered text (duplicates counted once per occurrence, written as a sum
of indicators), the count is divided by the floored word count, and the
raw scores are divided by their maximum when it is positive, a plain
rescaling rather than a min-max normalization. -/
def keywordScoresAmended (texts : List Str) (persona job : Str) : List ℚ :=
  let kws := extract_keywords (lower persona) ++ extract_keywords (lower job)
  let raw := texts.map (fun t =>
    (((kws.map (fun k => if containsSub k (lower t) then (1 : ℕ) else 0)).sum : ℕ) : ℚ) /
      ((max (pySplit t).length 1 : ℕ) : ℚ))
  let M := raw.foldr max 0
  if 0 < M then raw.map (fun s => s / M) else raw

/-!
Concrete inputs used by the counterexamples, the code-bug evaluations and
the witnesses.
-/

/-- A document of two pages whose plain text is the same structural
keyword line, with no spans, so only the pattern strategy fires. -/
def dupDoc : RawDoc :=
  ⟨[⟨[], lit "Introduction"⟩, ⟨[], lit "Introduction"⟩], []⟩

/-- A one-page document whose text is the numbered Scenario B pair. -/
def scenarioBDoc : RawDoc :=
  ⟨[⟨[], lit "1. Introduction\n1.1 Background"⟩], []⟩

/-- A readable one-page document with a large-font title line and a body
line, processed without failure up to the result assembly. -/
def titledDoc : RawDoc :=
  ⟨[⟨[[[⟨lit "Document Title Here", 20, 50, false⟩],
       [⟨lit "some plain body words okay", 10, 300, false⟩]]],
     lit "Document Title Here\nsome plain body words okay"⟩], []⟩

/-- A document without pages, the model of an empty PDF. -/
def zeroPageDoc : RawDoc := ⟨[], lit "meta"⟩

/-- A readable one-page document producing exactly one pooled section: a
header line above twelve points followed by sixty characters of body. -/
def sectionDoc : RawDoc :=
  ⟨[⟨[[[⟨lit "A Very Nice Section Head", 14, 0, false⟩],
       [⟨List.replicate 60 'x', 10, 0, false⟩]]], []⟩], []⟩

/-- The readable batch entry built on sectionDoc. -/
def goodFile : PdfFile := ⟨lit "d.pdf", some sectionDoc⟩

/-- A second readable batch entry on the same document. -/
def goodFile2 : PdfFile := ⟨lit "e.pdf", some sectionDoc⟩

/-- An unreadable batch entry. -/
def badFile : PdfFile := ⟨lit "bad.pdf", none⟩

/-- Constant similarity used to instantiate the encoder parameters. -/
def constSim : Str → ℚ := fun _ => 1/2

/-- One-sentence segmenter used to instantiate the tokenizer parameter. -/
def wholeTok : Str → List Str := fun s => [s]

/-- Sentences for the buffer-carry counterexample: three short sentences
whose buffer stays at or below one hundred characters at the third
boundary, followed by a long fourth sentence. -/
def carrySentences : List Str :=
  [lit "Aa.", lit "Bb.", lit "Cc.", List.replicate 120 'x']

/-- Texts of the keyword scoring counterexample. -/
def kwTexts : List Str :=
  [lit "revenue", lit "growth outlook", lit "zzzz qqqq wwww"]

/-- Persona of the keyword scoring counterexample. -/
def kwPersona : Str := lit "revenue growth"

/-- Job of the keyword scoring counterexample. -/
def kwJob : Str := lit "revenue outlook"

/-- The analysis result of the single-good-file batch, used by witnesses. -/
def witnessResult : AnalysisResult :=
  ⟨[lit "d.pdf"], lit "of", lit "to", 1,
    [⟨lit "d.pdf", 1, lit "A Very Nice Section Head", List.replicate 60 'x', 14, none, 1⟩],
    []⟩

/-- The analysis result of the two-good-file batch. -/
def twoGoodResult : AnalysisResult :=
  ⟨[lit "d.pdf", lit "e.pdf"], lit "of", lit "to", 2,
    [⟨lit "d.pdf", 1, lit "A Very Nice Section Head", List.replicate 60 'x', 14, none, 1⟩,
     ⟨lit "e.pdf", 1, lit "A Very Nice Section Head", List.replicate 60 'x', 14, none, 2⟩],
    []⟩

/-!
Helper lemmas shared by the claim theorems.
-/

/-- A batch containing an unreadable file makes the sequential extraction
loop raise. -/
theorem extractAll_error_of_bad (files : List PdfFile)
    (h : ∃ f ∈ files, f.doc = none) : ∃ e, extractAll files = .error e := by
  induction files with
  | nil => obtain ⟨f, hf, _⟩ := h; cases hf
  | cons f t ih =>
    obtain ⟨g, hg, hgd⟩ := h
    rcases List.mem_cons.mp hg with hgf | hgt
    · subst hgf
      exact ⟨OPEN_ERR, by simp [extractAll, extract_pdf_content, hgd]⟩
    · cases hf : extract_pdf_content f with
      | error e => exact ⟨e, by simp [extractAll, hf]⟩
      | ok c =>
        obtain ⟨e, he⟩ := ih ⟨g, hgt, hgd⟩
        exact ⟨e, by simp [extractAll, hf, he]⟩

/-!
Claim theorems.
-/

/-- Claim C1 counterexample: a batch of three documents, the middle one
unreadable, returns the degraded error-only shape, while the same batch
without the unreadable document returns a full result with sections
sourced from both readable documents; the per-document failure is not
isolated. -/
theorem claim_C1_counterexample :
    analyze_documents [goodFile, badFile, goodFile2] constSim constSim wholeTok
        (lit "of") (lit "to") = .error OPEN_ERR ∧
    analyze_documents [goodFile, goodFile2] constSim constSim wholeTok
        (lit "of") (lit "to") = .ok twoGoodResult := by
  constructor
  · with_unfolding_all decide
  · with_unfolding_all decide

/-- Claim C1 amended: an unreadable document in the batch aborts the whole
analysis, which returns the degraded error shape instead of a result built
from the readable documents. -/
theorem claim_C1_amended (files : List PdfFile) (psim jsim : Str → ℚ)
    (tok : Str → List Str) (persona job : Str)
    (h : ∃ f ∈ files, f.doc = none) :
    ∃ e, analyze_documents files psim jsim tok persona job = .error e := by
  obtain ⟨e, he⟩ := extractAll_error_of_bad files h
  exact ⟨e, by simp [analyze_documents, he]⟩

/-- Witness for the amended claim C1 at the concrete three-file batch. -/
theorem claim_C1_amended_witness :
    ∃ e, analyze_documents [goodFile, badFile, goodFile2] constSim constSim
        wholeTok (lit "of") (lit "to") = .error e :=
  claim_C1_amended [goodFile, badFile, goodFile2] constSim constSim wholeTok
    (lit "of") (lit "to") ⟨badFile, by decide, by decide⟩

/-- Claim C4 evaluation: a readable one-page document whose title and
heading chain both succeed still yields the degraded shape, because the
source reads the page count of the document after closing it while
assembling the metadata, and the provider refuses that read. -/
theorem claim_C4_code_bug :
    extract_outline (some titledDoc) = OutlineResult.degraded CLOSED_ERR ∧
    extract_title titledDoc = .ok (lit "Document Title Here") ∧
    outlineOf titledDoc = [⟨lit "H1", lit "Document Title Here", 1⟩] := by
  refine ⟨?_, ?_, ?_⟩
  · with_unfolding_all decide
  · with_unfolding_all decide
  · with_unfolding_all decide

/-- Claim C9 evaluation: a document without pages makes the title step
fail on the first-page access, so extract_outline returns the degraded
shape with a populated error field instead of an empty outline; the
intelligence chain on the same document does return an empty section set
without an error. -/
theorem claim_C9_code_bug :
    extract_outline (some zeroPageDoc) = OutlineResult.degraded NO_PAGE_ERR ∧
    analyze_documents [⟨lit "e.pdf", some zeroPageDoc⟩] constSim constSim
        wholeTok (lit "p") (lit "j") =
      .ok ⟨[lit "e.pdf"], lit "p", lit "j", 1, [], []⟩ := by
  constructor
  · decide
  · with_unfolding_all decide

/-- Claim C5 counterexample: the Scenario B page produces two H2 entries,
Introduction then Background, and no H1 entry at all, because the trailing
period of the first marker counts as a dot. -/
theorem claim_C5_counterexample :
    outlineOf scenarioBDoc =
      [⟨lit "H2", lit "Introduction", 1⟩, ⟨lit "H2", lit "Background", 1⟩] ∧
    ∀ e ∈ outlineOf scenarioBDoc, e.level ≠ lit "H1" := by
  constructor
  · decide
  · decide

/-- Claim C5 amended: a stripped line matched by the numeric marker
recognizer yields exactly one pattern heading whose level counts the dots
of the first whitespace-delimited token (a trailing period included) plus
one, capped at three, with the marker stripped from the text. -/
theorem claim_C5_amended (raw : Str) (p : ℕ) (rest : Str)
    (hm : numMarkerStrip (strip raw) = some rest)
    (hl : 3 ≤ (strip raw).length) :
    patternHeadingsOfLine raw p =
      [⟨hstr (min (((pySplit (strip raw)).headD []).count '.' + 1) 3), rest,
        p + 1, 0, lit "pattern"⟩] := by
  unfold patternHeadingsOfLine
  have h1 : (strip raw).isEmpty = false := by
    cases h : strip raw with
    | nil => rw [h] at hl; simp at hl
    | cons a l => rfl
  have h2 : ¬ (strip raw).length < 3 := by omega
  simp [h1, h2, hm]

/-- Witness for the amended claim C5 at the Scenario B second line. -/
theorem claim_C5_amended_witness :
    patternHeadingsOfLine (lit "1.1 Background") 0 =
      [⟨hstr (min (((pySplit (strip (lit "1.1 Background"))).headD []).count '.' + 1) 3),
        lit "Background", 1, 0, lit "pattern"⟩] :=
  claim_C5_amended (lit "1.1 Background") 0 (lit "Background") (by decide) (by decide)

set_option maxRecDepth 20000 in
/-- Claim C3 counterexample: with three short sentences followed by a long
one, the third-sentence boundary leaves the short buffer in place, and the
single emitted group carries all four sentences; the always-reset grouping
of the claim wording would instead emit only the final long sentence, so
the two disagree. -/
theorem claim_C3_counterexample :
    emitGroups carrySentences 0 [] 0 =
      [(1, lit "Aa. Bb. Cc. " ++ List.replicate 120 'x' ++ [' '])] ∧
    (emitGroups carrySentences 0 [] 0).map Prod.snd ≠ claimGroups carrySentences := by
  constructor
  · decide
  · decide

/-- Claim C3 amended: a boundary resets the buffer exactly when the
stripped buffer exceeds one hundred characters, independent of the later
score filter; a shorter buffer carries forward into the next group, and
the only text never emitted is the final leftover buffer, so the
concatenation of the emitted groups followed by the leftover recovers the
whole space-joined sentence text; every emitted group exceeds one hundred
stripped characters. -/
theorem claim_C3_amended (ss : List Str) (i cnt : ℕ) (buf : Str) :
    ((emitGroups ss i buf cnt).map Prod.snd).flatten ++ leftoverBuf ss i buf =
      buf ++ (ss.map (fun s => s ++ [' '])).flatten ∧
    ∀ g ∈ emitGroups ss i buf cnt, 100 < (strip g.2).length := by
  induction ss generalizing i cnt buf with
  | nil => simp [emitGroups, leftoverBuf]
  | cons sn rest ih =>
    by_cases hc : (((i + 1) % 3 = 0 || rest.isEmpty) &&
        decide (100 < (strip (buf ++ sn ++ [' '])).length)) = true
    · have hlen := (Bool.and_eq_true _ _).mp hc
      have hlong : 100 < (strip (buf ++ sn ++ [' '])).length := of_decide_eq_true hlen.2
      constructor
      · have := (ih (i + 1) (cnt + 1) []).1
        simp only [emitGroups, leftoverBuf, hc, if_true, List.map_cons, List.flatten_cons]
        rw [List.append_assoc, this]
        simp [List.append_assoc]
      · intro g hg
        simp only [emitGroups, hc, if_true, List.mem_cons] at hg
        rcases hg with rfl | hg
        · exact hlong
        · exact (ih (i + 1) (cnt + 1) []).2 g hg
    · have hc2 : (((i + 1) % 3 = 0 || rest.isEmpty) &&
          decide (100 < (strip (buf ++ sn ++ [' '])).length)) = false :=
        Bool.not_eq_true _ ▸ eq_false_of_ne_true hc
      constructor
      · have := (ih (i + 1) cnt (buf ++ sn ++ [' '])).1
        simp only [emitGroups, leftoverBuf, hc2, if_false, Bool.false_eq_true]
        rw [this]
        simp [List.append_assoc]
      · intro g hg
        simp only [emitGroups, hc2, if_false, Bool.false_eq_true] at hg
        exact (ih (i + 1) cnt (buf ++ sn ++ [' '])).2 g hg

/-- A table whose keys and values are never whitespace preserves the
whitespace test. -/
theorem tableMap_ws (t : List (Char × Char)) (c : Char)
    (ht : ∀ p ∈ t, isWs p.1 = false ∧ isWs p.2 = false) :
    isWs (tableMap t c) = isWs c := by
  induction t with
  | nil => rfl
  | cons p rest ih =>
    have hp := ht p (List.mem_cons_self _ _)
    show isWs (if c = p.1 then p.2 else tableMap rest c) = isWs c
    by_cases hc : c = p.1
    · rw [if_pos hc, hp.2, hc, hp.1]
    · rw [if_neg hc]
      exact ih (fun q hq => ht q (List.mem_cons_of_mem _ hq))

/-- Lowering a character preserves the whitespace test: the table only
moves uppercase letters, which are not whitespace, onto lowercase letters,
which are not whitespace either. -/
theorem lowerChar_ws (c : Char) : isWs (lowerChar c) = isWs c :=
  tableMap_ws lowerTable c (by decide)

/-- Dropping a prefix by a predicate twice is the same as once. -/
theorem dropWhile_dropWhile (p : Char → Bool) (l : Str) :
    (l.dropWhile p).dropWhile p = l.dropWhile p := by
  induction l with
  | nil => rfl
  | cons c cs ih =>
    by_cases h : p c
    · simp [List.dropWhile_cons, h, ih]
    · simp [List.dropWhile_cons, h]

/-- Dropping a prefix does not lengthen a list. -/
theorem dropWhile_length_le (p : Char → Bool) (l : Str) :
    (l.dropWhile p).length ≤ l.length := by
  induction l with
  | nil => simp
  | cons c cs ih =>
    by_cases h : p c
    · simp only [List.dropWhile_cons, h, if_true]
      exact le_trans ih (Nat.le_succ _)
    · simp [List.dropWhile_cons, h]

/-- Left trimming is idempotent. -/
theorem ltrim_idem (s : Str) : ltrim (ltrim s) = ltrim s :=
  dropWhile_dropWhile isWs s

/-- Right trimming yields a leading part of the list. -/
theorem rtrim_leading (l : Str) : rtrim l <+: l := by
  have h : ltrim l.reverse <:+ l.reverse := List.dropWhile_suffix isWs
  obtain ⟨r, hr⟩ := h
  refine ⟨r.reverse, ?_⟩
  have h2 := congrArg List.reverse hr
  simpa [rtrim, List.reverse_append] using h2

/-- A list whose head fails the whitespace test is left trimmed. -/
theorem ltrim_eq_self_head (l : Str)
    (h : ∀ c, l.head? = some c → isWs c = false) : ltrim l = l := by
  cases l with
  | nil => rfl
  | cons c cs =>
    have hc := h c rfl
    simp [ltrim, List.dropWhile_cons, hc]

/-- The head of a left trimmed list fails the whitespace test. -/
theorem head_not_ws_of_ltrim_eq (l : Str) (h : ltrim l = l) :
    ∀ c, l.head? = some c → isWs c = false := by
  intro c hc
  cases l with
  | nil => cases hc
  | cons c2 cs =>
    cases hc
    by_contra hw
    have hw2 : isWs c = true := Bool.not_eq_false _ ▸ eq_true_of_ne_false hw
    have hlen : (ltrim (c :: cs)).length ≤ cs.length := by
      simpa [ltrim, List.dropWhile_cons, hw2] using dropWhile_length_le isWs cs
    rw [h] at hlen
    simp at hlen

/-- A leading part of a left trimmed list is itself left trimmed. -/
theorem ltrim_of_leading (l t : Str) (hl : ltrim l = l) (ht : t <+: l) :
    ltrim t = t := by
  cases t with
  | nil => rfl
  | cons c cs =>
    apply ltrim_eq_self_head
    intro c2 hc2
    cases hc2
    obtain ⟨r, hr⟩ := ht
    apply head_not_ws_of_ltrim_eq l hl
    rw [← hr]
    rfl

/-- Right trimming is idempotent. -/
theorem rtrim_rtrim (l : Str) : rtrim (rtrim l) = rtrim l := by
  unfold rtrim
  rw [List.reverse_reverse, ltrim_idem]

/-- Stripping is idempotent. -/
theorem strip_idem (s : Str) : strip (strip s) = strip s := by
  unfold strip
  rw [ltrim_of_leading (ltrim s) (rtrim (ltrim s)) (ltrim_idem s) (rtrim_leading _),
    rtrim_rtrim]

/-- Lowering commutes with dropping leading whitespace. -/
theorem dropWhile_map_lower (s : Str) :
    (s.map lowerChar).dropWhile isWs = (s.dropWhile isWs).map lowerChar := by
  induction s with
  | nil => rfl
  | cons c cs ih =>
    by_cases h : isWs c
    · have h2 : isWs (lowerChar c) = true := by rw [lowerChar_ws]; exact h
      simp [List.dropWhile_cons, h, h2, ih]
    · have h2 : isWs (lowerChar c) = false := by
        rw [lowerChar_ws]; exact eq_false_of_ne_true h
      simp [List.dropWhile_cons, h, h2]

/-- Lowering commutes with left trimming. -/
theorem ltrim_lower (s : Str) : ltrim (lower s) = lower (ltrim s) :=
  dropWhile_map_lower s

/-- Reversal commutes with lowering. -/
theorem lower_reverse (s : Str) : (lower s).reverse = lower s.reverse := by
  simp [lower]

/-- Lowering commutes with right trimming. -/
theorem rtrim_lower (s : Str) : rtrim (lower s) = lower (rtrim s) := by
  unfold rtrim
  rw [lower_reverse, ltrim_lower, lower_reverse]

/-- Lowering commutes with stripping. -/
theorem strip_lower (s : Str) : strip (lower s) = lower (strip s) := by
  unfold strip
  rw [ltrim_lower, rtrim_lower]

/-- Normalization is blind to a preceding strip. -/
theorem normText_strip (x : Str) : normText (strip x) = normText x := by
  unfold normText
  simp only [strip_lower, strip_idem]

/-- No element kept by the deduplication loop has its normalized text in
the seen set the loop started from. -/
theorem dedupAux_norm_not_seen (l : List Heading) :
    ∀ (seen : List Str), ∀ h2 ∈ dedupAux seen l, normText h2.text ∉ seen := by
  induction l with
  | nil => intro seen h2 hmem; simp [dedupAux] at hmem
  | cons h t ih =>
    intro seen h2 hmem
    unfold dedupAux at hmem
    by_cases hc : normText h.text ∉ seen ∧ 2 < (strip h.text).length
    · rw [if_pos hc] at hmem
      rcases List.mem_cons.mp hmem with rfl | hmem2
      · show normText (strip h.text) ∉ seen
        rw [normText_strip]
        exact hc.1
      · have h3 := ih (normText h.text :: seen) h2 hmem2
        exact fun hs => h3 (List.mem_cons_of_mem _ hs)
    · rw [if_neg hc] at hmem
      exact ih seen h2 hmem

/-- The deduplication loop emits pairwise distinct normalized texts. -/
theorem dedupAux_pairwise (l : List Heading) :
    ∀ seen, List.Pairwise (fun a b => normText a.text ≠ normText b.text)
      (dedupAux seen l) := by
  induction l with
  | nil => intro seen; simp [dedupAux]
  | cons h t ih =>
    intro seen
    unfold dedupAux
    by_cases hc : normText h.text ∉ seen ∧ 2 < (strip h.text).length
    · rw [if_pos hc]
      refine List.Pairwise.cons ?_ (ih _)
      intro b hb heq
      have hnotin := dedupAux_norm_not_seen t (normText h.text :: seen) b hb
      apply hnotin
      have hbh : normText b.text = normText h.text := by
        rw [← heq]
        exact normText_strip h.text
      rw [hbh]
      exact List.mem_cons_self _ _
    · rw [if_neg hc]
      exact ih seen

/-- Page insertion permutes to consing. -/
theorem insPage_perm (h : Heading) (l : List Heading) :
    List.Perm (insPage h l) (h :: l) := by
  induction l with
  | nil => exact List.Perm.refl _
  | cons h2 t ih =>
    unfold insPage
    by_cases hc : h.page < h2.page
    · rw [if_pos hc]
    · rw [if_neg hc]
      exact List.Perm.trans (List.Perm.cons _ ih) (List.Perm.swap _ _ _)

/-- The stable page sort is a permutation of its input. -/
theorem sortByPage_perm (l : List Heading) : List.Perm (sortByPage l) l := by
  suffices hgen : ∀ acc : List Heading,
      List.Perm (l.foldl (fun acc h => insPage h acc) acc) (l ++ acc) by
    simpa using hgen []
  induction l with
  | nil => intro acc; simp
  | cons h t ih =>
    intro acc
    have h1 : List.Perm (t.foldl (fun acc h => insPage h acc) (insPage h acc))
        (t ++ insPage h acc) := ih (insPage h acc)
    have h2 : List.Perm (t ++ insPage h acc) (t ++ (h :: acc)) :=
      List.Perm.append_left t (insPage_perm h acc)
    have h3 : List.Perm (t ++ (h :: acc)) (h :: (t ++ acc)) := List.perm_middle
    exact h1.trans (h2.trans h3)

/-- Claim C2 counterexample: a structural keyword heading repeated on two
different pages survives fusion twice, because the deduplication seen set
is rebuilt for every page; the outline then carries two entries with the
same normalized text. -/
theorem claim_C2_counterexample :
    outlineOf dupDoc =
      [⟨lit "H2", lit "Introduction", 1⟩, ⟨lit "H2", lit "Introduction", 2⟩] ∧
    ¬ List.Pairwise (fun a b : OutlineEntry => normText a.text ≠ normText b.text)
      (outlineOf dupDoc) := by
  have he : outlineOf dupDoc =
      [⟨lit "H2", lit "Introduction", 1⟩, ⟨lit "H2", lit "Introduction", 2⟩] := by decide
  refine ⟨he, ?_⟩
  intro hpw
  rw [he] at hpw
  rcases List.pairwise_cons.mp hpw with ⟨h1, _⟩
  exact h1 _ (List.mem_cons_self _ _) rfl

/-- Claim C2 amended: uniqueness of normalized heading texts holds within
each page. The fused candidate list produced for a single page carries
pairwise distinct normalized texts; entries on different pages may
repeat, as the seen set is rebuilt per page. -/
theorem claim_C2_amended (fs ps pos : List Heading) :
    List.Pairwise (fun a b => normText a.text ≠ normText b.text)
      (combine_strategies fs ps pos) := by
  unfold combine_strategies
  have hp := sortByPage_perm (dedupAux [] (fs ++ ps ++ pos))
  have hpw := dedupAux_pairwise (fs ++ ps ++ pos) []
  exact (List.Perm.pairwise_iff (fun {a b} hab heq => hab heq.symm) hp).mpr hpw

/-- Counting by a predicate equals summing its indicator over the list. -/
theorem countP_eq_sum_indicator {α : Type} (l : List α) (p : α → Bool) :
    (l.map (fun x => if p x then (1 : ℕ) else 0)).sum = l.countP p := by
  induction l with
  | nil => rfl
  | cons x xs ih =>
    by_cases hx : p x
    · simp [List.countP_cons, hx, ih, Nat.add_comm]
    · simp [List.countP_cons, hx, ih]

/-- Folding max from the right with a joined seed splits the seed out. -/
theorem foldr_max_shift (l : List ℚ) (a b : ℚ) :
    l.foldr max (max a b) = max a (l.foldr max b) := by
  induction l with
  | nil => rfl
  | cons x xs ih =>
    simp only [List.foldr_cons, ih]
    rw [max_left_comm]

/-- Left and right folds of max agree for any seed. -/
theorem foldl_max_eq_foldr (l : List ℚ) (a : ℚ) : l.foldl max a = l.foldr max a := by
  induction l generalizing a with
  | nil => rfl
  | cons x xs ih =>
    simp only [List.foldl_cons, List.foldr_cons, ih]
    rw [max_comm a x, foldr_max_shift]

/-- A nonnegative seed can be pulled out of a right max fold. -/
theorem foldr_max_seed (l : List ℚ) (a : ℚ) (ha : 0 ≤ a) :
    l.foldr max a = max a (l.foldr max 0) := by
  have h := foldr_max_shift l a 0
  rwa [max_eq_left ha] at h

/-- Every raw keyword score is nonnegative: a natural count divided by a
natural word count. -/
theorem keywordScoresRaw_nonneg (texts : List Str) (p j : Str) :
    ∀ q ∈ keywordScoresRaw texts p j, 0 ≤ q := by
  intro q hq
  simp only [keywordScoresRaw, List.mem_map] at hq
  obtain ⟨t, _, rfl⟩ := hq
  exact div_nonneg (Nat.cast_nonneg _) (Nat.cast_nonneg _)

/-- Claim C6 counterexample: with persona revenue growth and job revenue
outlook, the shared keyword revenue is counted twice by the source, so the
first text scores two per word against one for the second; after division
by the maximum the source scores differ from the keyword-set, min-max
normalized scores of the claim wording. -/
theorem claim_C6_counterexample :
    calculate_keyword_scores kwTexts kwPersona kwJob = [1, 1/2, 0] ∧
    keywordScoresClaim kwTexts kwPersona kwJob = [1, 1, 0] ∧
    calculate_keyword_scores kwTexts kwPersona kwJob ≠
      keywordScoresClaim kwTexts kwPersona kwJob := by
  refine ⟨?_, ?_, ?_⟩
  · with_unfolding_all decide
  · with_unfolding_all decide
  · with_unfolding_all decide

/-- Claim C6 amended: the source keyword score counts every occurrence in
the concatenated persona and job keyword lists (duplicates counted per
occurrence, not as a set), divides by the floored word count, and rescales
by dividing by the maximum when it is positive; this equals the
independently phrased indicator-sum description for all inputs. -/
theorem claim_C6_amended (texts : List Str) (persona job : Str) :
    calculate_keyword_scores texts persona job = keywordScoresAmended texts persona job := by
  unfold calculate_keyword_scores keywordScoresAmended
  have hraw :
      texts.map (fun t =>
        ((((extract_keywords (lower persona) ++ extract_keywords (lower job)).map
            (fun k => if containsSub k (lower t) then (1 : ℕ) else 0)).sum : ℕ) : ℚ) /
          ((max (pySplit t).length 1 : ℕ) : ℚ)) =
        keywordScoresRaw texts persona job := by
    unfold keywordScoresRaw
    apply List.map_congr_left
    intro t _
    rw [countP_eq_sum_indicator]
  simp only [hraw]
  cases hr : keywordScoresRaw texts persona job with
  | nil => simp
  | cons q t =>
    have hq : 0 ≤ q := keywordScoresRaw_nonneg texts persona job q (by rw [hr]; exact List.mem_cons_self q t)
    have hm : (q :: t).foldl max q = (q :: t).foldr max 0 := by
      rw [foldl_max_eq_foldr]
      simp only [List.foldr_cons]
      rw [foldr_max_seed t q hq, ← max_assoc, max_self]
    simp only [hm]

/-- The rank assignment loop produces the consecutive ranks starting just
above its counter. -/
theorem rankTopAux_ranks (l : List PooledSection) :
    ∀ i, (rankTopAux i l).map (fun s => s.importanceRank) =
      List.range' (i + 1) l.length := by
  induction l with
  | nil => intro i; rfl
  | cons s t ih =>
    intro i
    show (i + 1) :: (rankTopAux (i + 1) t).map (fun s => s.importanceRank) =
      List.range' (i + 1) (t.length + 1)
    rw [ih (i + 1), List.range'_succ]

/-- The rank assignment loop clears every internal score. -/
theorem rankTopAux_score_none (l : List PooledSection) :
    ∀ i, ∀ s ∈ rankTopAux i l, s.relevanceScore = none := by
  induction l with
  | nil => intro i s hs; cases hs
  | cons s0 t ih =>
    intro i s hs
    rcases List.mem_cons.mp hs with rfl | hs2
    · rfl
    · exact ih (i + 1) s hs2

/-- The rank assignment loop preserves length. -/
theorem rankTopAux_length (l : List PooledSection) :
    ∀ i, (rankTopAux i l).length = l.length := by
  induction l with
  | nil => intro i; rfl
  | cons s t ih =>
    intro i
    show (rankTopAux (i + 1) t).length + 1 = t.length + 1
    rw [ih (i + 1)]

/-- The ranked section list always arises from the rank assignment loop
applied to a list of at most fifteen sections. -/
theorem extract_relevant_sections_shape (docs : List DocContent)
    (psim jsim : Str → ℚ) (persona job : Str) :
    ∃ l, extract_relevant_sections docs psim jsim persona job = rankTop l ∧
      l.length ≤ 15 := by
  unfold extract_relevant_sections
  simp only []
  split
  · exact ⟨[], rfl, by simp⟩
  · exact ⟨_, rfl, List.length_take_le _ _⟩

/-- Every subsection of the refinement output has its score cleared. -/
theorem extract_subsections_score_none (relevant : List PooledSection)
    (psim jsim : Str → ℚ) (tok : Str → List Str) :
    ∀ u ∈ extract_subsections relevant psim jsim tok, u.relevanceScore = none := by
  intro u hu
  unfold extract_subsections at hu
  simp only [List.mem_map] at hu
  obtain ⟨v, _, rfl⟩ := hu
  rfl

/-- Successful analysis results decompose into the two stage outputs. -/
theorem analyze_documents_ok (files : List PdfFile) (psim jsim : Str → ℚ)
    (tok : Str → List Str) (persona job : Str) (r : AnalysisResult)
    (hok : analyze_documents files psim jsim tok persona job = .ok r) :
    ∃ docs, extractAll files = .ok docs ∧
      r.extractedSections = extract_relevant_sections docs psim jsim persona job ∧
      r.subSectionAnalysis =
        extract_subsections (extract_relevant_sections docs psim jsim persona job)
          psim jsim tok := by
  unfold analyze_documents at hok
  cases hex : extractAll files with
  | error e => rw [hex] at hok; cases hok
  | ok docs =>
    rw [hex] at hok
    injection hok with hr
    subst hr
    exact ⟨docs, rfl, rfl, rfl⟩

/-- Claim C7: in every successful analysis result the internal relevance
score is absent from all ranked sections and all subsections, and the
importance ranks are exactly the dense sequence from one in array order.
The metadata fields of the model carry no score by construction. -/
theorem claim_C7 (files : List PdfFile) (psim jsim : Str → ℚ)
    (tok : Str → List Str) (persona job : Str) (r : AnalysisResult)
    (hok : analyze_documents files psim jsim tok persona job = .ok r) :
    (∀ s ∈ r.extractedSections, s.relevanceScore = none) ∧
    r.extractedSections.map (fun s => s.importanceRank) =
      List.range' 1 r.extractedSections.length ∧
    (∀ u ∈ r.subSectionAnalysis, u.relevanceScore = none) := by
  obtain ⟨docs, _, hsec, hsub⟩ := analyze_documents_ok files psim jsim tok persona job r hok
  obtain ⟨l, hl, _⟩ := extract_relevant_sections_shape docs psim jsim persona job
  refine ⟨?_, ?_, ?_⟩
  · intro s hs
    rw [hsec, hl] at hs
    exact rankTopAux_score_none l 0 s hs
  · rw [hsec, hl]
    show (rankTopAux 0 l).map (fun s => s.importanceRank) =
      List.range' 1 (rankTopAux 0 l).length
    rw [rankTopAux_ranks l 0, rankTopAux_length l 0]
  · intro u hu
    rw [hsub] at hu
    exact extract_subsections_score_none _ psim jsim tok u hu

/-- Witness for claim C7 at the single-good-file batch. -/
theorem claim_C7_witness :
    (∀ s ∈ witnessResult.extractedSections, s.relevanceScore = none) ∧
    witnessResult.extractedSections.map (fun s => s.importanceRank) =
      List.range' 1 witnessResult.extractedSections.length ∧
    (∀ u ∈ witnessResult.subSectionAnalysis, u.relevanceScore = none) :=
  claim_C7 [goodFile] constSim constSim wholeTok (lit "of") (lit "to")
    witnessResult (by with_unfolding_all decide)

/-- Membership in a descending insertion comes from the new element or the
old list. -/
theorem mem_insDesc {α : Type} (key : α → ℚ) (x y : α) (l : List α)
    (h : x ∈ insDesc key y l) : x = y ∨ x ∈ l := by
  induction l with
  | nil => rcases List.mem_cons.mp h with rfl | h2
           · exact Or.inl rfl
           · cases h2
  | cons z t ih =>
    unfold insDesc at h
    by_cases hc : key z < key y
    · rw [if_pos hc] at h
      rcases List.mem_cons.mp h with rfl | h2
      · exact Or.inl rfl
      · exact Or.inr h2
    · rw [if_neg hc] at h
      rcases List.mem_cons.mp h with rfl | h2
      · exact Or.inr (List.mem_cons_self _ _)
      · rcases ih h2 with rfl | h3
        · exact Or.inl rfl
        · exact Or.inr (List.mem_cons_of_mem _ h3)

/-- Membership after folding descending insertions comes from the list or
the accumulator. -/
theorem mem_foldl_insDesc {α : Type} (key : α → ℚ) (x : α) :
    ∀ (l acc : List α), x ∈ l.foldl (fun acc y => insDesc key y acc) acc →
      x ∈ l ∨ x ∈ acc := by
  intro l
  induction l with
  | nil => intro acc h2; exact Or.inr h2
  | cons y t ih =>
    intro acc h2
    rcases ih (insDesc key y acc) h2 with h3 | h3
    · exact Or.inl (List.mem_cons_of_mem _ h3)
    · rcases mem_insDesc key x y acc h3 with rfl | h4
      · exact Or.inl (List.mem_cons_self _ _)
      · exact Or.inr h4

/-- Membership in the stable descending sort comes from the input. -/
theorem mem_sortDescBy {α : Type} (key : α → ℚ) (l : List α) (x : α)
    (h : x ∈ sortDescBy key l) : x ∈ l := by
  rcases mem_foldl_insDesc key x l [] h with h2 | h2
  · exact h2
  · cases h2

/-- Every raw subsection of one section carries that section title as its
parent. -/
theorem sectionSubsRaw_parent (psim jsim : Str → ℚ) (sec : PooledSection)
    (sentences : List Str) (v : Subsect)
    (hv : v ∈ sectionSubsRaw psim jsim sec sentences) :
    v.parentSection = sec.sectionTitle := by
  unfold sectionSubsRaw at hv
  simp only [List.mem_filterMap] at hv
  obtain ⟨g, _, hg⟩ := hv
  by_cases hsc : (3 : ℚ)/10 < subScore psim jsim g.2
  · simp only [hsc, if_pos] at hg
    cases hg
    rfl
  · simp only [hsc, if_neg, if_false] at hg
    exact Option.noConfusion hg

/-- Every subsection of the refinement output takes its parent from one of
the first ten ranked sections. -/
theorem extract_subsections_parent (relevant : List PooledSection)
    (psim jsim : Str → ℚ) (tok : Str → List Str) (u : Subsect)
    (hu : u ∈ extract_subsections relevant psim jsim tok) :
    ∃ sec ∈ relevant.take 10, u.parentSection = sec.sectionTitle := by
  unfold extract_subsections at hu
  simp only [List.mem_map] at hu
  obtain ⟨v, hv, rfl⟩ := hu
  have hv2 := List.mem_of_mem_take hv
  have hv3 := mem_sortDescBy _ _ _ hv2
  simp only [List.mem_flatten, List.mem_map] at hv3
  obtain ⟨piece, ⟨sec, hsec, rfl⟩, hvp⟩ := hv3
  exact ⟨sec, hsec, sectionSubsRaw_parent psim jsim sec (tok sec.content) v hvp⟩

/-- Claim C8: a successful analysis result has at most fifteen ranked
sections, at most twenty subsections, and every subsection parent title
occurs among the first ten ranked section titles. -/
theorem claim_C8 (files : List PdfFile) (psim jsim : Str → ℚ)
    (tok : Str → List Str) (persona job : Str) (r : AnalysisResult)
    (hok : analyze_documents files psim jsim tok persona job = .ok r) :
    r.extractedSections.length ≤ 15 ∧ r.subSectionAnalysis.length ≤ 20 ∧
    ∀ u ∈ r.subSectionAnalysis, u.parentSection ∈
      (r.extractedSections.take 10).map (fun s => s.sectionTitle) := by
  obtain ⟨docs, _, hsec, hsub⟩ := analyze_documents_ok files psim jsim tok persona job r hok
  obtain ⟨l, hl, hlen⟩ := extract_relevant_sections_shape docs psim jsim persona job
  refine ⟨?_, ?_, ?_⟩
  · rw [hsec, hl]
    show (rankTopAux 0 l).length ≤ 15
    rw [rankTopAux_length l 0]
    exact hlen
  · rw [hsub]
    unfold extract_subsections
    rw [List.length_map]
    exact List.length_take_le _ _
  · intro u hu
    rw [hsub] at hu
    obtain ⟨sec, hsec10, hpar⟩ :=
      extract_subsections_parent _ psim jsim tok u hu
    rw [hsec]
    exact List.mem_map.mpr ⟨sec, hsec10, hpar.symm⟩

/-- Witness for claim C8 at the single-good-file batch. -/
theorem claim_C8_witness :
    witnessResult.extractedSections.length ≤ 15 ∧
    witnessResult.subSectionAnalysis.length ≤ 20 ∧
    ∀ u ∈ witnessResult.subSectionAnalysis, u.parentSection ∈
      (witnessResult.extractedSections.take 10).map (fun s => s.sectionTitle) :=
  claim_C8 [goodFile] constSim constSim wholeTok (lit "of") (lit "to")
    witnessResult (by with_unfolding_all decide)

/-- The emitted group numbers are the consecutive integers starting just
above the counter: every group exceeding one hundred characters consumes
one number, whether or not the score filter later keeps it. -/
theorem emitGroups_counts (ss : List Str) :
    ∀ i (buf : Str) cnt, (emitGroups ss i buf cnt).map Prod.fst =
      List.range' (cnt + 1) (emitGroups ss i buf cnt).length := by
  induction ss with
  | nil => intro i buf cnt; rfl
  | cons sn rest ih =>
    intro i buf cnt
    by_cases hc : (((i + 1) % 3 = 0 || rest.isEmpty) &&
        decide (100 < (strip (buf ++ sn ++ [' '])).length)) = true
    · simp only [emitGroups, hc, if_true, List.map_cons, List.length_cons]
      rw [ih (i + 1) [] (cnt + 1), List.range'_succ]
    · have hc2 : (((i + 1) % 3 = 0 || rest.isEmpty) &&
          decide (100 < (strip (buf ++ sn ++ [' '])).length)) = false :=
        eq_false_of_ne_true hc
      simp only [emitGroups, hc2, Bool.false_eq_true, if_false]
      exact ih (i + 1) (buf ++ sn ++ [' ']) cnt

/-- A filterMap through a decidable gate is a filter followed by a map. -/
theorem filterMap_gate {α β : Type} (l : List α) (q : α → Prop)
    [DecidablePred q] (f : α → β) :
    l.filterMap (fun a => if q a then some (f a) else none) =
      (l.filter (fun a => decide (q a))).map f := by
  induction l with
  | nil => rfl
  | cons a t ih =>
    by_cases h : q a
    · simp [h, ih]
    · simp [h, ih]

/-- Consecutive integer runs are strictly increasing. -/
theorem range'_pairwise_lt (n : ℕ) : ∀ s, List.Pairwise (· < ·) (List.range' s n) := by
  induction n with
  | zero => intro s; simp
  | succ n ih =>
    intro s
    rw [List.range'_succ]
    refine List.Pairwise.cons ?_ (ih (s + 1))
    intro b hb
    have hbm := List.mem_range'_1.mp hb
    omega

/-- Claim C10: within one section, the group counter advances once per
emitted group (groups that the score filter later discards included), the
surviving subsections are exactly the score-passing groups built with
their counter value, and the counter values of the survivors are strictly
increasing, not necessarily contiguous nor starting at one. -/
theorem claim_C10 (psim jsim : Str → ℚ) (sec : PooledSection)
    (sentences : List Str) :
    (emitGroups sentences 0 [] 0).map Prod.fst =
      List.range' 1 (emitGroups sentences 0 [] 0).length ∧
    sectionSubsRaw psim jsim sec sentences =
      ((emitGroups sentences 0 [] 0).filter
        (fun g => decide ((3 : ℚ)/10 < subScore psim jsim g.2))).map
        (fun g => mkSub sec g.1 g.2 (subScore psim jsim g.2)) ∧
    List.Pairwise (fun a b => a < b)
      (((emitGroups sentences 0 [] 0).filter
        (fun g => decide ((3 : ℚ)/10 < subScore psim jsim g.2))).map Prod.fst) := by
  refine ⟨emitGroups_counts sentences 0 [] 0, ?_, ?_⟩
  · unfold sectionSubsRaw
    exact filterMap_gate (emitGroups sentences 0 [] 0)
      (fun g => (3 : ℚ)/10 < subScore psim jsim g.2)
      (fun g => mkSub sec g.1 g.2 (subScore psim jsim g.2))
  · have hsub : List.Sublist
        (((emitGroups sentences 0 [] 0).filter
          (fun g => decide ((3 : ℚ)/10 < subScore psim jsim g.2))).map Prod.fst)
        ((emitGroups sentences 0 [] 0).map Prod.fst) :=
      (List.filter_sublist _).map _
    have hpw : List.Pairwise (fun a b : ℕ => a < b)
        ((emitGroups sentences 0 [] 0).map Prod.fst) := by
      rw [emitGroups_counts sentences 0 [] 0]
      exact range'_pairwise_lt _ _
    exact hpw.sublist hsub

end AdobeChallenge
